import Mathlib

/-!
# urlreader

A shallow embedding of `urlreader.go` (package `urlreader`): the `URLReader`
builder, its configuration methods and `Open`.

Go values are modelled as follows.

* A Go `string` and a `[]byte` are lists of bytes; a byte is a number below 256.
* A Go `int` is an `Int`.
* A pointer receiver that a method mutates and returns is passed as a value and
  the method returns the mutated value: the result of `u.Header(n, v)` is the
  state of the one reader after the call.
* An `error` is a value of `GoError`; `nil` is `none`.
* The response body is an `io.ReadCloser` backed by a connection: its state is
  the data the connection still delivers, the condition it ends with, and
  whether it was closed.
* The transport (`http.Client.Do`) is a parameter of `Open`.
-/

namespace urlreader

/-- One byte. -/
abbrev Byte := Fin 256

/-- A Go `string` or `[]byte`: a sequence of bytes. -/
abbrev GoString := List Byte

/-- The UTF-8 encoding of one character, as the Go compiler stores it in a string literal. -/
def utf8 (c : Char) : GoString :=
  let n := c.toNat
  if n < 0x80 then [Fin.ofNat n]
  else if n < 0x800 then [Fin.ofNat (0xC0 + n / 64), Fin.ofNat (0x80 + n % 64)]
  else if n < 0x10000 then
    [Fin.ofNat (0xE0 + n / 4096), Fin.ofNat (0x80 + n / 64 % 64), Fin.ofNat (0x80 + n % 64)]
  else
    [Fin.ofNat (0xF0 + n / 262144), Fin.ofNat (0x80 + n / 4096 % 64),
      Fin.ofNat (0x80 + n / 64 % 64), Fin.ofNat (0x80 + n % 64)]

/-- A Go byte literal such as `'a'`. -/
def ch (c : Char) : Byte :=
  Fin.ofNat c.toNat

/-- A Go string literal. -/
def lit (s : String) : GoString :=
  s.data.flatMap utf8

/-- Go errors that occur in this package and the library calls it makes. -/
inductive GoError where
  /-- The value `io.EOF`. -/
  | EOF
  /-- An error made by `errors.New(text)` or by `fmt.Errorf` without `%w`. -/
  | New (text : GoString)
  /-- A `url.EscapeError`. -/
  | EscapeError (s : GoString)
  /-- A `url.InvalidHostError`. -/
  | InvalidHostError (s : GoString)
  /-- The error `fmt.Errorf("invalid port %q after host", colonPort)` of `net/url`. -/
  | InvalidPort (colonPort : GoString)
  /-- The error `fmt.Errorf("net/http: invalid method %q", method)` of `net/http`. -/
  | InvalidMethod (method : GoString)
  /-- A `*url.Error` with its operation, URL and cause. -/
  | URLError (op : GoString) (url : GoString) (err : GoError)
  deriving DecidableEq, Repr

/-- The decimal digits of a natural number. -/
def fmtNat (n : Nat) : GoString :=
  (Nat.toDigits 10 n).map (fun c => Fin.ofNat c.toNat)

/-- The verb `%d` of package `fmt` applied to an `int`. -/
def fmtInt (n : Int) : GoString :=
  if n < 0 then lit "-" ++ fmtNat n.natAbs else fmtNat n.natAbs

/-! ## Readers (package `io`) -/

/-- What one call of `Read` returns: the bytes stored in the buffer and the error. -/
abbrev ReadResult := GoString × Option GoError

/-- An `io.Reader` whose supply is finite: `Read r n` is a call of `r.Read(p)` with
`len(p) = n`, giving the result and the reader afterwards; a call with room in the
buffer that reports no error has used up part of the supply. -/
class Reader (ρ : Type) where
  /-- The method `Read`. -/
  Read : ρ → Nat → ReadResult × ρ
  /-- A bound on the calls that can still succeed. -/
  supply : ρ → Nat
  /-- A successful call with a non-empty buffer uses up supply. -/
  progress : ∀ (r : ρ) (n : Nat), 0 < n → (Read r n).1.2 = none → supply (Read r n).2 < supply r

/-- The error `errReadOnClosedResBody` of `net/http`. -/
def errReadOnClosedResBody : GoError :=
  .New (lit "http: read on closed response body")

/-- The body of an HTTP response, an `io.ReadCloser` bound to a connection. -/
structure Body where
  /-- The data the connection still delivers, in the segments in which it arrives. -/
  pending : List GoString
  /-- The condition that ends the stream: `io.EOF`, or a read failure, which stays. -/
  final : GoError
  /-- Whether the final condition is reported by the same `Read` that returns the last segment. -/
  eager : Bool
  /-- Whether `Close` was called. -/
  closed : Bool
  /-- The number of `Read` calls made on the body so far. -/
  reads : Nat

/-- The bytes of the body that no `Read` has returned yet. -/
def Body.unread (b : Body) : GoString :=
  b.pending.flatten

/-- The method `Read` of a response body with a buffer of `n` bytes: at most one segment
per call, cut to the buffer; the final condition once the data is used up; an error after
`Close`. -/
def Body.Read (b : Body) (n : Nat) : ReadResult × Body :=
  let b := { b with reads := b.reads + 1 }
  if b.closed then (([], some errReadOnClosedResBody), b)
  else
    match b.pending with
    | [] => (([], some b.final), b)
    | c :: rest =>
      if c.length ≤ n then
        ((c, if rest.isEmpty && b.eager then some b.final else none), { b with pending := rest })
      else
        ((c.take n, none), { b with pending := c.drop n :: rest })

/-- The method `Close` of a response body; it returns `nil`. -/
def Body.Close (b : Body) : Body :=
  { b with closed := true }

/-- The number of successful reads a body can still serve. -/
def Body.supply (b : Body) : Nat :=
  (b.pending.map (fun c => c.length + 1)).sum

/-- The type `io.LimitedReader` over a response body. -/
structure LimitedReader where
  /-- The underlying reader. -/
  R : Body
  /-- The bytes remaining. -/
  N : Int

/-- The function `io.LimitReader`. -/
def LimitReader (r : Body) (n : Int) : LimitedReader :=
  { R := r, N := n }

/-- The method `Read` of `io.LimitedReader`. -/
def LimitedReader.Read (l : LimitedReader) (n : Nat) : ReadResult × LimitedReader :=
  if l.N ≤ 0 then (([], some .EOF), l)
  else
    let n := if (n : Int) > l.N then l.N.toNat else n
    let res := l.R.Read n
    (res.1, { R := res.2, N := l.N - res.1.1.length })

instance : Reader Body where
  Read := Body.Read
  supply := Body.supply
  progress := by
    intro b n hn h
    unfold Body.Read at h ⊢
    unfold Body.supply
    cases hp : b.pending with
    | nil => simp only [hp] at h; split at h <;> simp at h
    | cons c rest =>
      simp only [hp] at h ⊢
      by_cases hc : b.closed = true
      · simp [hc] at h
      · by_cases hl : c.length ≤ n
        · simp [hc, hl]
        · simp only [hc, hl, Bool.false_eq_true, if_false, List.map_cons, List.sum_cons,
            List.length_drop]
          omega

instance : Reader LimitedReader where
  Read := LimitedReader.Read
  supply := fun l => Body.supply l.R
  progress := by
    intro l n hn h
    unfold LimitedReader.Read at h ⊢
    by_cases hN : l.N ≤ 0
    · simp [hN] at h
    · simp only [hN, if_false] at h ⊢
      apply Reader.progress (ρ := Body) l.R _ _ h
      split <;> omega

/-- The function `io.ReadAll` (`ioutil.ReadAll`), its loop: `b` holds the bytes read so
far and `free` is the room left in the slice, `cap(b) - len(b)`. A full slice is grown
first; `grow len` is the room `append` leaves beyond the one byte appended. -/
def ReadAll.loop {ρ : Type} [Reader ρ] (grow : Nat → Nat) (r : ρ) (b : GoString) (free : Nat) :
    ReadResult × ρ :=
  let free := if free = 0 then grow b.length + 1 else free
  let res := Reader.Read r free
  let b := b ++ res.1.1
  match h : res.1.2 with
  | some err => ((b, if err = GoError.EOF then none else some err), res.2)
  | none => ReadAll.loop grow res.2 b (free - res.1.1.length)
termination_by Reader.supply r
decreasing_by
  apply Reader.progress r _ _ h
  simp only [free]
  split <;> omega

/-- The function `io.ReadAll` (`ioutil.ReadAll`): it starts with an empty slice of
capacity 512 and reads until an error; `io.EOF` is reported as `nil`. -/
def ReadAll {ρ : Type} [Reader ρ] (grow : Nat → Nat) (r : ρ) : ReadResult × ρ :=
  ReadAll.loop grow r [] 512

/-- The method `ReadFrom` of `ioutil.Discard`, which `io.Copy` calls: it reads into a
buffer of 8192 bytes until an error and counts the bytes; `io.EOF` is reported as `nil`. -/
def Discard.ReadFrom {ρ : Type} [Reader ρ] (r : ρ) (n : Int) : (Int × Option GoError) × ρ :=
  let res := Reader.Read r 8192
  let n := n + res.1.1.length
  match h : res.1.2 with
  | some err => ((n, if err = GoError.EOF then none else some err), res.2)
  | none => Discard.ReadFrom res.2 n
termination_by Reader.supply r
decreasing_by
  apply Reader.progress r _ _ h
  omega

/-- The call `io.Copy(ioutil.Discard, src)`. -/
def Copy_Discard {ρ : Type} [Reader ρ] (src : ρ) : (Int × Option GoError) × ρ :=
  Discard.ReadFrom src 0

/-! ## Package `strings` -/

/-- The function `strings.Index`; `none` stands for `-1`. -/
def Index (s sep : GoString) : Option Nat :=
  if sep.isPrefixOf s then some 0
  else
    match s with
    | [] => none
    | _ :: t => (Index t sep).map (· + 1)

/-- The function `strings.LastIndex`; `none` stands for `-1`. -/
def LastIndex (s sep : GoString) : Option Nat :=
  match s with
  | [] => if sep.isEmpty then some 0 else none
  | c :: t =>
    match LastIndex t sep with
    | some i => some (i + 1)
    | none => if sep.isPrefixOf (c :: t) then some 0 else none

/-- The function `strings.Cut`. -/
def Cut (s sep : GoString) : GoString × GoString × Bool :=
  match Index s sep with
  | some i => (s.take i, s.drop (i + sep.length), true)
  | none => (s, [], false)

/-- The function `strings.Contains`. -/
def Contains (s substr : GoString) : Bool :=
  (Index s substr).isSome

/-- The function `strings.ToLower` on a string of ASCII bytes. -/
def ToLower (s : GoString) : GoString :=
  s.map (fun c => if ch 'A' ≤ c ∧ c ≤ ch 'Z' then c + 32 else c)

/-! ## Package `net/url`

The functions that `url.Parse` runs, after the sources of Go 1.22. -/

/-- The modes of escaping of `net/url`. -/
inductive encoding where
  | encodePath
  | encodePathSegment
  | encodeHost
  | encodeZone
  | encodeUserPassword
  | encodeQueryComponent
  | encodeFragment
  deriving DecidableEq, Repr

open encoding

/-- The type `url.Userinfo`. -/
structure Userinfo where
  username : GoString
  password : GoString
  passwordSet : Bool
  deriving DecidableEq, Repr

/-- The type `url.URL`; a `nil` `User` is `none`. -/
structure URL where
  Scheme : GoString := []
  Opaque : GoString := []
  User : Option Userinfo := none
  Host : GoString := []
  Path : GoString := []
  RawPath : GoString := []
  OmitHost : Bool := false
  ForceQuery : Bool := false
  RawQuery : GoString := []
  Fragment : GoString := []
  RawFragment : GoString := []
  deriving DecidableEq, Repr

/-- The function `ishex`. -/
def ishex (c : Byte) : Bool :=
  (ch '0' ≤ c && c ≤ ch '9') || (ch 'a' ≤ c && c ≤ ch 'f') || (ch 'A' ≤ c && c ≤ ch 'F')

/-- The function `unhex`. -/
def unhex (c : Byte) : Byte :=
  if ch '0' ≤ c ∧ c ≤ ch '9' then c - ch '0'
  else if ch 'a' ≤ c ∧ c ≤ ch 'f' then c - ch 'a' + 10
  else if ch 'A' ≤ c ∧ c ≤ ch 'F' then c - ch 'A' + 10
  else 0

/-- The function `shouldEscape`: whether the byte must be escaped in the given mode. -/
def shouldEscape (c : Byte) (mode : encoding) : Bool :=
  if (ch 'a' ≤ c && c ≤ ch 'z') || (ch 'A' ≤ c && c ≤ ch 'Z') || (ch '0' ≤ c && c ≤ ch '9') then
    false
  else if (mode = encodeHost || mode = encodeZone) && (lit "!$&()*+,;=:[]<>\"").contains c
      || (mode = encodeHost || mode = encodeZone) && c = 39 then
    false
  else if (lit "-_.~").contains c then
    false
  else if (lit "$&+,/:;=?@").contains c && mode = encodePath then
    c = ch '?'
  else if (lit "$&+,/:;=?@").contains c && mode = encodePathSegment then
    c = ch '/' || c = ch ';' || c = ch ',' || c = ch '?'
  else if (lit "$&+,/:;=?@").contains c && mode = encodeUserPassword then
    c = ch '@' || c = ch '/' || c = ch '?' || c = ch ':'
  else if (lit "$&+,/:;=?@").contains c && mode = encodeQueryComponent then
    true
  else if (lit "$&+,/:;=?@").contains c && mode = encodeFragment then
    false
  else if mode = encodeFragment && (lit "!()*").contains c then
    false
  else
    true

/-- The first loop of `unescape`: it counts the `%` and checks that they are well-formed;
the result is the count `n` and the flag `hasPlus`. -/
def unescape.check (mode : encoding) (n : Nat) (hasPlus : Bool) :
    GoString → Except GoError (Nat × Bool)
  | [] => .ok (n, hasPlus)
  | c :: rest =>
    if c = ch '%' then
      match rest with
      | a :: b :: rest' =>
        if !ishex a || !ishex b then .error (.EscapeError [c, a, b])
        else if mode = encodeHost && unhex a < 8 && [c, a, b] ≠ lit "%25" then
          .error (.EscapeError [c, a, b])
        else if mode = encodeZone && [c, a, b] ≠ lit "%25" && unhex a * 16 + unhex b ≠ ch ' '
            && shouldEscape (unhex a * 16 + unhex b) encodeHost then
          .error (.EscapeError [c, a, b])
        else unescape.check mode (n + 1) hasPlus rest'
      | _ => .error (.EscapeError (c :: rest))
    else if c = ch '+' then
      unescape.check mode n (mode = encodeQueryComponent) rest
    else if (mode = encodeHost || mode = encodeZone) && c < 0x80 && shouldEscape c mode then
      .error (.InvalidHostError [c])
    else unescape.check mode n hasPlus rest

/-- The second loop of `unescape`: it builds the unescaped string. -/
def unescape.build (mode : encoding) : GoString → GoString
  | [] => []
  | c :: rest =>
    if c = ch '%' then
      match rest with
      | a :: b :: rest' => (unhex a * 16 + unhex b) :: unescape.build mode rest'
      | _ => []
    else if c = ch '+' then
      (if mode = encodeQueryComponent then ch ' ' else ch '+') :: unescape.build mode rest
    else c :: unescape.build mode rest

/-- The function `unescape`. -/
def unescape (s : GoString) (mode : encoding) : Except GoError GoString :=
  match unescape.check mode 0 false s with
  | .error e => .error e
  | .ok (n, hasPlus) => if n = 0 && !hasPlus then .ok s else .ok (unescape.build mode s)

/-- The digits `upperhex`. -/
def upperhex (i : Nat) : Byte :=
  (lit "0123456789ABCDEF").getD i 0

/-- The function `escape`. -/
def escape (s : GoString) (mode : encoding) : GoString :=
  s.flatMap (fun c =>
    if shouldEscape c mode then
      if c = ch ' ' ∧ mode = encodeQueryComponent then [ch '+']
      else [ch '%', upperhex (c.val / 16), upperhex (c.val % 16)]
    else [c])

/-- The function `stringContainsCTLByte`. -/
def stringContainsCTLByte (s : GoString) : Bool :=
  s.any (fun b => b < ch ' ' || b = 0x7f)

/-- The function `getScheme`: the scheme and the rest of the URL. -/
def getScheme.loop (rawURL : GoString) (i : Nat) : GoString → Except GoError (GoString × GoString)
  | [] => .ok ([], rawURL)
  | c :: rest =>
    if (ch 'a' ≤ c && c ≤ ch 'z') || (ch 'A' ≤ c && c ≤ ch 'Z') then
      getScheme.loop rawURL (i + 1) rest
    else if (ch '0' ≤ c && c ≤ ch '9') || c = ch '+' || c = ch '-' || c = ch '.' then
      if i = 0 then .ok ([], rawURL) else getScheme.loop rawURL (i + 1) rest
    else if c = ch ':' then
      if i = 0 then .error (.New (lit "missing protocol scheme"))
      else .ok (rawURL.take i, rawURL.drop (i + 1))
    else .ok ([], rawURL)

/-- The function `getScheme`. -/
def getScheme (rawURL : GoString) : Except GoError (GoString × GoString) :=
  getScheme.loop rawURL 0 rawURL

/-- The function `validOptionalPort`. -/
def validOptionalPort (port : GoString) : Bool :=
  match port with
  | [] => true
  | c :: digits => if c ≠ ch ':' then false else digits.all (fun b => !(b < ch '0' || b > ch '9'))

/-- The function `validUserinfo`. -/
def validUserinfo (s : GoString) : Bool :=
  s.all (fun r =>
    (ch 'A' ≤ r && r ≤ ch 'Z') || (ch 'a' ≤ r && r ≤ ch 'z') || (ch '0' ≤ r && r ≤ ch '9')
      || (lit "-._:~!$&()*+,;=%@").contains r || r = 39)

/-- The function `parseHost`. -/
def parseHost (host : GoString) : Except GoError GoString :=
  let plain : Except GoError GoString := unescape host encodeHost
  if (lit "[").isPrefixOf host then
    match LastIndex host (lit "]") with
    | none => .error (.New (lit "missing ']' in host"))
    | some i =>
      let colonPort := host.drop (i + 1)
      if !validOptionalPort colonPort then .error (.InvalidPort colonPort)
      else
        match Index (host.take i) (lit "%25") with
        | some zone =>
          match unescape (host.take zone) encodeHost with
          | .error e => .error e
          | .ok host1 =>
            match unescape ((host.take i).drop zone) encodeZone with
            | .error e => .error e
            | .ok host2 =>
              match unescape (host.drop i) encodeHost with
              | .error e => .error e
              | .ok host3 => .ok (host1 ++ host2 ++ host3)
        | none => plain
  else
    match LastIndex host (lit ":") with
    | some i =>
      let colonPort := host.drop i
      if !validOptionalPort colonPort then .error (.InvalidPort colonPort) else plain
    | none => plain

/-- The function `parseAuthority`: the user and the host. -/
def parseAuthority (authority : GoString) : Except GoError (Option Userinfo × GoString) :=
  let i := LastIndex authority (lit "@")
  let parsed :=
    match i with
    | none => parseHost authority
    | some i => parseHost (authority.drop (i + 1))
  match parsed with
  | .error e => .error e
  | .ok host =>
    match i with
    | none => .ok (none, host)
    | some i =>
      let userinfo := authority.take i
      if !validUserinfo userinfo then .error (.New (lit "net/url: invalid userinfo"))
      else if !Contains userinfo (lit ":") then
        match unescape userinfo encodeUserPassword with
        | .error e => .error e
        | .ok userinfo => .ok (some { username := userinfo, password := [], passwordSet := false }, host)
      else
        let (username, password, _) := Cut userinfo (lit ":")
        match unescape username encodeUserPassword with
        | .error e => .error e
        | .ok username =>
          match unescape password encodeUserPassword with
          | .error e => .error e
          | .ok password =>
            .ok (some { username := username, password := password, passwordSet := true }, host)

/-- The method `setPath`. -/
def URL.setPath (u : URL) (p : GoString) : Except GoError URL :=
  match unescape p encodePath with
  | .error e => .error e
  | .ok path =>
    if p = escape path encodePath then .ok { u with Path := path, RawPath := [] }
    else .ok { u with Path := path, RawPath := p }

/-- The method `setFragment`. -/
def URL.setFragment (u : URL) (f : GoString) : Except GoError URL :=
  match unescape f encodeFragment with
  | .error e => .error e
  | .ok frag =>
    if f = escape frag encodeFragment then .ok { u with Fragment := frag, RawFragment := [] }
    else .ok { u with Fragment := frag, RawFragment := f }

/-- The function `parse`: a URL without its fragment, in one of two contexts. -/
def parse (rawURL : GoString) (viaRequest : Bool) : Except GoError URL :=
  if stringContainsCTLByte rawURL then
    .error (.New (lit "net/url: invalid control character in URL"))
  else if rawURL = [] && viaRequest then .error (.New (lit "empty url"))
  else if rawURL = lit "*" then .ok { Path := lit "*" }
  else
    match getScheme rawURL with
    | .error e => .error e
    | .ok (scheme, rest) =>
      let url : URL := { Scheme := ToLower scheme }
      let (url, rest) :=
        if (lit "?").isSuffixOf rest && rest.count (ch '?') = 1 then
          ({ url with ForceQuery := true }, rest.take (rest.length - 1))
        else
          let (rest, query, _) := Cut rest (lit "?")
          ({ url with RawQuery := query }, rest)
      if !(lit "/").isPrefixOf rest && url.Scheme ≠ [] then .ok { url with Opaque := rest }
      else if !(lit "/").isPrefixOf rest && viaRequest then
        .error (.New (lit "invalid URI for request"))
      else if !(lit "/").isPrefixOf rest && Contains (Cut rest (lit "/")).1 (lit ":") then
        .error (.New (lit "first path segment in URL cannot contain colon"))
      else if (url.Scheme ≠ [] || !viaRequest && !(lit "///").isPrefixOf rest)
          && (lit "//").isPrefixOf rest then
        let authority := rest.drop 2
        let (authority, rest) :=
          match Index authority (lit "/") with
          | some i => (authority.take i, authority.drop i)
          | none => (authority, [])
        match parseAuthority authority with
        | .error e => .error e
        | .ok (user, host) => URL.setPath { url with User := user, Host := host } rest
      else if url.Scheme ≠ [] && (lit "/").isPrefixOf rest then
        URL.setPath { url with OmitHost := true } rest
      else URL.setPath url rest

/-- The function `url.Parse`. -/
def Parse (rawURL : GoString) : Except GoError URL :=
  let (u, frag, _) := Cut rawURL (lit "#")
  match parse u false with
  | .error err => .error (.URLError (lit "parse") u err)
  | .ok url =>
    if frag = [] then .ok url
    else
      match url.setFragment frag with
      | .error err => .error (.URLError (lit "parse") rawURL err)
      | .ok url => .ok url

/-! ## Packages `net/textproto` and `encoding/base64`

The canonical form of header names and the standard base64 encoding, after the sources of
Go 1.22. -/

/-- The function `validHeaderFieldByte`: the bytes of an RFC 7230 token. -/
def validHeaderFieldByte (c : Byte) : Bool :=
  (ch '0' ≤ c && c ≤ ch '9') || (ch 'a' ≤ c && c ≤ ch 'z') || (ch 'A' ≤ c && c ≤ ch 'Z')
    || (lit "!#$%&*+-.^_|~").contains c || c = 39 || c = 96

/-- The constant `toLower`, which is `'a' - 'A'`. -/
def toLower : Byte := 32

/-- The first loop of `canonicalMIMEHeaderKey`: `none` when a byte other than a space is
not a header field byte, otherwise the flag `noCanon`. -/
def canonicalMIMEHeaderKey.check (noCanon : Bool) : GoString → Option Bool
  | [] => some noCanon
  | c :: rest =>
    if validHeaderFieldByte c then canonicalMIMEHeaderKey.check noCanon rest
    else if c = ch ' ' then canonicalMIMEHeaderKey.check true rest
    else none

/-- The second loop of `canonicalMIMEHeaderKey`: upper case for the first letter and after
each dash, lower case elsewhere. -/
def canonicalMIMEHeaderKey.loop (upper : Bool) : GoString → GoString
  | [] => []
  | c :: rest =>
    let c :=
      if upper && ch 'a' ≤ c && c ≤ ch 'z' then c - toLower
      else if !upper && ch 'A' ≤ c && c ≤ ch 'Z' then c + toLower
      else c
    c :: canonicalMIMEHeaderKey.loop (c = ch '-') rest

/-- The function `canonicalMIMEHeaderKey`, its first result, the key: unchanged when it
has a space or a byte that is not a header field byte, canonical otherwise. Its last step
looks the result up in the table `commonHeader`, which maps every name it holds to that
same name, and is left out. -/
def canonicalMIMEHeaderKey (a : GoString) : GoString :=
  match canonicalMIMEHeaderKey.check false a with
  | none => a
  | some true => a
  | some false => canonicalMIMEHeaderKey.loop true a

/-- The loop of `textproto.CanonicalMIMEHeaderKey`, the quick check for a key that is
canonical already. -/
def CanonicalMIMEHeaderKey.loop (s : GoString) (upper : Bool) : GoString → GoString
  | [] => s
  | c :: rest =>
    if !validHeaderFieldByte c then s
    else if upper && ch 'a' ≤ c && c ≤ ch 'z' then canonicalMIMEHeaderKey s
    else if !upper && ch 'A' ≤ c && c ≤ ch 'Z' then canonicalMIMEHeaderKey s
    else CanonicalMIMEHeaderKey.loop s (c = ch '-') rest

/-- The function `textproto.CanonicalMIMEHeaderKey`. -/
def CanonicalMIMEHeaderKey (s : GoString) : GoString :=
  CanonicalMIMEHeaderKey.loop s true s

/-- The alphabet `encodeStd` of `encoding/base64`. -/
def encodeStd (i : Nat) : Byte :=
  (lit "ABCDEFGHIJKLMNOPQRSTUVWXYZabcdefghijklmnopqrstuvwxyz0123456789+/").getD i 0

/-- The method `base64.StdEncoding.EncodeToString`: three bytes give four digits, and the
last one or two bytes are padded with `=`. -/
def EncodeToString : GoString → GoString
  | a :: b :: c :: rest =>
    let v := a.val * 65536 + b.val * 256 + c.val
    encodeStd (v / 262144 % 64) :: encodeStd (v / 4096 % 64) :: encodeStd (v / 64 % 64)
      :: encodeStd (v % 64) :: EncodeToString rest
  | [a, b] =>
    let v := a.val * 65536 + b.val * 256
    [encodeStd (v / 262144 % 64), encodeStd (v / 4096 % 64), encodeStd (v / 64 % 64), ch '=']
  | [a] =>
    let v := a.val * 65536
    [encodeStd (v / 262144 % 64), encodeStd (v / 4096 % 64), ch '=', ch '=']
  | [] => []

/-! ## Package `net/http` -/

/-- The type `http.Header`, a map from header names to their values; a name that is not
a key of the map gives `none`. -/
abbrev HTTPHeader := GoString → Option (List GoString)

/-- The empty map `make(Header)`. -/
def HTTPHeader.make : HTTPHeader :=
  fun _ => none

/-- The method `Header.Set`: the entry of the canonical key becomes the single value. -/
def HTTPHeader.Set (h : HTTPHeader) (key value : GoString) : HTTPHeader :=
  fun k => if k = CanonicalMIMEHeaderKey key then some [value] else h k

/-- The method `Header.Values`: all values of the key, none when it is absent. -/
def HTTPHeader.Values (h : HTTPHeader) (key : GoString) : List GoString :=
  (h (CanonicalMIMEHeaderKey key)).getD []

/-- A `context.Context`: the background context, or one the caller made. -/
inductive Context where
  | Background
  | Derived (id : Nat)
  deriving DecidableEq, Repr

/-- The type `http.Request`, for a request without a body. -/
structure Request where
  ctx : Context
  Method : GoString
  URL : URL
  Proto : GoString
  ProtoMajor : Int
  ProtoMinor : Int
  Header : HTTPHeader
  Host : GoString

/-- The function `validMethod`. -/
def validMethod (method : GoString) : Bool :=
  method.length > 0 && method.all validHeaderFieldByte

/-- The index that Go reports: `-1` when there is none. -/
def indexOrMinusOne (i : Option Nat) : Int :=
  match i with
  | some i => i
  | none => -1

/-- The function `hasPort`. -/
def hasPort (s : GoString) : Bool :=
  indexOrMinusOne (LastIndex s (lit ":")) > indexOrMinusOne (LastIndex s (lit "]"))

/-- The function `removeEmptyPort`. -/
def removeEmptyPort (host : GoString) : GoString :=
  if hasPort host then
    if (lit ":").isSuffixOf host then host.take (host.length - 1) else host
  else host

/-- The constant `http.MethodGet`. -/
def MethodGet : GoString := lit "GET"

/-- The constant `http.StatusOK`. -/
def StatusOK : Int := 200

/-- The function `http.NewRequest` with a `nil` body: `NewRequestWithContext` with the
background context. -/
def NewRequest (method url : GoString) : Except GoError Request :=
  let method := if method = [] then lit "GET" else method
  if !validMethod method then .error (.InvalidMethod method)
  else
    match Parse url with
    | .error err => .error err
    | .ok u =>
      let u := { u with Host := removeEmptyPort u.Host }
      .ok { ctx := .Background, Method := method, URL := u, Proto := lit "HTTP/1.1",
            ProtoMajor := 1, ProtoMinor := 1, Header := HTTPHeader.make, Host := u.Host }

/-- The function `basicAuth`. -/
def basicAuth (username password : GoString) : GoString :=
  EncodeToString (username ++ lit ":" ++ password)

/-- The method `Request.SetBasicAuth`. -/
def Request.SetBasicAuth (r : Request) (username password : GoString) : Request :=
  { r with Header := r.Header.Set (lit "Authorization") (lit "Basic " ++ basicAuth username password) }

/-- The method `Request.WithContext`: a copy of the request with the context. -/
def Request.WithContext (r : Request) (ctx : Context) : Request :=
  { r with ctx := ctx }

/-- The type `http.Transport`: its field `Proxy` is `nil` (`none`) or the function
`http.ProxyURL(fixedURL)`, which returns `fixedURL` for every request. -/
structure Transport where
  Proxy : Option (Option URL) := none

/-- The type `http.Client`; a `nil` `Transport` is `none` and stands for the default. -/
structure Client where
  Transport : Option Transport := none

/-- The type `http.Response`: its status code and its body. -/
structure Response where
  StatusCode : Int
  Body : Body

/-- What `Client.Do` returns, the pair `(resp, err)`: without an error there is a response
with a body; with an error there may be a response all the same. -/
inductive DoResult where
  | ok (resp : Response)
  | failed (resp : Option Response) (err : GoError)

/-! ## Package `urlreader` -/

/-- The type `URLReader`: a URLReader with default options. -/
structure URLReader where
  loc : GoString
  returnStatus : Int
  req : Request
  trans : Option Transport

/-- NewURLReader return a new URLReader-object. -/
def NewURLReader (loc : GoString) : Except GoError URLReader :=
  match NewRequest MethodGet loc with
  | .error err => .error err
  | .ok request => .ok { loc := loc, returnStatus := StatusOK, req := request, trans := none }

/-- BasicAuth sets the basic auth header in the request. -/
def URLReader.BasicAuth (u : URLReader) (user pw : GoString) : URLReader :=
  { u with req := u.req.SetBasicAuth user pw }

/-- OAuth2HeaderToken sets the Authorization HTTP-header to the given OAuth2 token;
`fmt.Sprintf("Bearer %s", token)` is the literal followed by the token. -/
def URLReader.OAuth2HeaderToken (u : URLReader) (token : GoString) : URLReader :=
  { u with req := { u.req with Header := u.req.Header.Set (lit "Authorization") (lit "Bearer " ++ token) } }

/-- Header set a HTTP-header in the request. -/
def URLReader.Header (u : URLReader) (name value : GoString) : URLReader :=
  { u with req := { u.req with Header := u.req.Header.Set name value } }

/-- Proxy sets the proxy-URL. -/
def URLReader.Proxy (u : URLReader) (fixedURL : Option URL) : URLReader :=
  { u with trans := some { Proxy := some fixedURL } }

/-- ReturnStatus sets the expected return status. -/
def URLReader.ReturnStatus (u : URLReader) (status : Int) : URLReader :=
  { u with returnStatus := status }

/-- What `Open` returns, and the response body as the call leaves it. -/
structure OpenResult where
  /-- The `io.ReadCloser` returned; `nil` is `none`. -/
  stream : Option Body
  /-- The error returned; `nil` is `none`. -/
  err : Option GoError
  /-- The body of the response the transport gave, if any, when `Open` returns. -/
  body : Option Body

/-- Open returns the body of the response as an io.ReadCloser, or nil and an error if the
request fails or the return HTTP status-code is unequal to the expected status. `Do` is
the method `Client.Do`; `grow` is the growth of slices in `ReadAll`. The deferred function
runs after the error value is made. -/
def URLReader.Open (Do : Client → Request → DoResult) (grow : Nat → Nat) (u : URLReader)
    (ctx : Context) : OpenResult :=
  let c : Client := {}
  let c : Client := if u.trans.isSome then { c with Transport := u.trans } else c
  match Do c (u.req.WithContext ctx) with
  | .failed resp err => { stream := none, err := some err, body := resp.map (·.Body) }
  | .ok resp =>
    if resp.StatusCode ≠ u.returnStatus then
      let lr := LimitReader resp.Body 8192
      let read := ReadAll grow lr
      let body := read.1.1
      let err := GoError.New
        (u.loc ++ lit " returned status " ++ fmtInt resp.StatusCode ++ lit "; error = " ++ body)
      let copied := Copy_Discard read.2.R
      let closed := copied.2.Close
      { stream := none, err := some err, body := some closed }
    else { stream := some resp.Body, err := none, body := some resp.Body }

/-- The call of the transport that `Open` makes: `c.Do(u.req.WithContext(ctx))` with the
client of lines 75 to 78. -/
def URLReader.transportCall (Do : Client → Request → DoResult) (u : URLReader) (ctx : Context) :
    DoResult :=
  Do (if u.trans.isSome then { Transport := u.trans } else {}) (u.req.WithContext ctx)

/-- The error that `Open` makes for a response with the wrong status:
`fmt.Errorf("%s returned status %d; error = %s", loc, status, body)`. -/
def statusError (loc : GoString) (status : Int) (body : GoString) : GoError :=
  .New (loc ++ lit " returned status " ++ fmtInt status ++ lit "; error = " ++ body)

/-- The number that a string of decimal digits denotes. -/
def readNat (s : GoString) : Nat :=
  s.foldl (fun acc c => acc * 10 + (c.val - 48)) 0

/-- The integer that a decimal numeral with an optional leading minus sign denotes. -/
def readInt (s : GoString) : Int :=
  match s with
  | [] => 0
  | c :: rest => if c = ch '-' then -(readNat rest : Int) else (readNat (c :: rest) : Int)

/-- The bytes a limited reader can still return: the unread bytes of its body, cut to
its limit. -/
def LimitedReader.content (l : LimitedReader) : GoString :=
  l.R.unread.take l.N.toNat

/-- The lower-case form of an ASCII letter, any other byte unchanged. -/
def asciiLower (c : Byte) : Byte :=
  if ch 'A' ≤ c ∧ c ≤ ch 'Z' then c + toLower else c

/-- Two header names are equal up to letter case. -/
def EqualFold (n n' : GoString) : Prop :=
  n.map asciiLower = n'.map asciiLower

instance (n n' : GoString) : Decidable (EqualFold n n') :=
  inferInstanceAs (Decidable (n.map asciiLower = n'.map asciiLower))

/-! ## Examples: the end-to-end scenario -/

/-- The reader that `NewURLReader` makes for `http://example.test/data`. -/
def exampleReader : URLReader :=
  { loc := lit "http://example.test/data"
    returnStatus := 200
    req :=
      { ctx := .Background, Method := lit "GET"
        URL := { Scheme := lit "http", Host := lit "example.test", Path := lit "/data" }
        Proto := lit "HTTP/1.1", ProtoMajor := 1, ProtoMinor := 1
        Header := HTTPHeader.make, Host := lit "example.test" }
    trans := none }

/-- A body that the connection delivers in the given segments and then ends. -/
def exampleBody (segments : List GoString) : Body :=
  { pending := segments, final := .EOF, eager := false, closed := false, reads := 0 }

/-- A transport that answers every request with the given status and body. -/
def exampleServer (status : Int) (body : Body) : Client → Request → DoResult :=
  fun _ _ => .ok { StatusCode := status, Body := body }

/-- A transport that fails every request with the given error and no response. -/
def exampleOutage (err : GoError) : Client → Request → DoResult :=
  fun _ _ => .failed none err

/-! ## Readers: what one call and what the loops return -/

section Readers

/-- A `Read` on an open body returns a prefix of the unread bytes no longer than the
buffer, leaves the rest unread and the body open with the same ending, and reports as
error only the ending, at which point nothing is left. -/
theorem Body_Read_spec (b : Body) (n : Nat) (hopen : b.closed = false) :
    b.unread = (b.Read n).1.1 ++ (b.Read n).2.unread
      ∧ (b.Read n).1.1.length ≤ n
      ∧ (b.Read n).2.closed = false
      ∧ (b.Read n).2.final = b.final
      ∧ (b.Read n).2.eager = b.eager
      ∧ (∀ e, (b.Read n).1.2 = some e → e = b.final ∧ (b.Read n).2.pending = []) := by
  unfold Body.Read Body.unread
  cases hp : b.pending with
  | nil => simp [hopen, hp]
  | cons c rest =>
    by_cases hl : c.length ≤ n
    · simp only [hopen, hp, hl, Bool.false_eq_true, if_false, if_true, List.flatten_cons]
      refine ⟨trivial, trivial, trivial, trivial, trivial, ?_⟩
      intro e he
      split at he
      · rename_i h
        simp only [Bool.and_eq_true, List.isEmpty_iff] at h
        simp only [Option.some.injEq] at he
        exact ⟨he.symm, h.1⟩
      · simp at he
    · simp only [hopen, hp, hl, Bool.false_eq_true, if_false, List.flatten_cons]
      refine ⟨?_, ?_, trivial, trivial, trivial, ?_⟩
      · rw [← List.append_assoc, List.take_append_drop]
      · simp only [List.length_take]; omega
      · intro e he; simp at he

/-- A `Read` on a limited reader over an open body returns a
prefix of what the reader can still return and leaves the body open; once it reports an
error the reader has nothing left to return. -/
theorem LimitedReader_Read_spec (l : LimitedReader) (n : Nat)
    (hopen : l.R.closed = false) :
    l.content = (l.Read n).1.1 ++ (l.Read n).2.content
      ∧ (l.Read n).2.R.closed = false
      ∧ (l.Read n).2.R.final = l.R.final
      ∧ (l.Read n).2.R.eager = l.R.eager
      ∧ (∀ e, (l.Read n).1.2 = some e → (l.Read n).2.content = []) := by
  unfold LimitedReader.Read LimitedReader.content
  by_cases hN : l.N ≤ 0
  · have h0 : l.N.toNat = 0 := by omega
    simp [hN, hopen, h0]
  · simp only [hN, if_false]
    generalize hm : (if (n : Int) > l.N then l.N.toNat else n) = m
    have hmN : (m : Int) ≤ l.N := by
      rw [← hm]; split <;> omega
    obtain ⟨hu, hlen, hc, hf, he, herr⟩ := Body_Read_spec l.R m hopen
    refine ⟨?_, hc, hf, he, ?_⟩
    · have hk : (l.N - ((l.R.Read m).1.1.length : Int)).toNat
          = l.N.toNat - (l.R.Read m).1.1.length := by omega
      rw [hk, hu, List.take_append_eq_append_take]
      congr 1
      apply List.take_of_length_le
      omega
    · intro e hE
      have := (herr e hE).2
      simp [Body.unread, this]

/-- The loop of `ReadAll` returns the bytes it had followed by everything the reader could
still return, for a reader whose calls return prefixes of that and leave nothing once they
report an error. -/
theorem ReadAll_loop_spec {ρ : Type} [Reader ρ] (content : ρ → GoString) (I : ρ → Prop)
    (hstep : ∀ r n, I r → 0 < n →
      I (Reader.Read r n).2
        ∧ content r = (Reader.Read r n).1.1 ++ content (Reader.Read r n).2
        ∧ (∀ e, (Reader.Read r n).1.2 = some e → content (Reader.Read r n).2 = []))
    (grow : Nat → Nat) (r : ρ) (b : GoString) (free : Nat) (hI : I r) :
    (ReadAll.loop grow r b free).1.1 = b ++ content r ∧ I (ReadAll.loop grow r b free).2 := by
  generalize hs : Reader.supply r = k
  induction k using Nat.strong_induction_on generalizing r b free with
  | _ k ih =>
    rw [ReadAll.loop]
    have hpos : 0 < (if free = 0 then grow b.length + 1 else free) := by split <;> omega
    obtain ⟨hI', hc, he⟩ := hstep r _ hI hpos
    split
    · rename_i err herr
      simp only
      rw [hc, he err herr]
      simp [hI']
    · rename_i herr
      have hlt := Reader.progress r _ hpos herr
      obtain ⟨h1, h2⟩ := ih _ (hs ▸ hlt) _ (b ++ (Reader.Read r _).1.1) _ hI' rfl
      refine ⟨?_, h2⟩
      rw [h1, hc, List.append_assoc]

/-- The loop of `ReadAll` reports the one error its reader can report, with `io.EOF`
turned into `nil`. -/
theorem ReadAll_loop_err {ρ : Type} [Reader ρ] (I : ρ → Prop) (e0 : GoError)
    (hstep : ∀ r n, I r → 0 < n →
      I (Reader.Read r n).2 ∧ (∀ e, (Reader.Read r n).1.2 = some e → e = e0))
    (grow : Nat → Nat) (r : ρ) (b : GoString) (free : Nat) (hI : I r) :
    (ReadAll.loop grow r b free).1.2 = if e0 = GoError.EOF then none else some e0 := by
  generalize hs : Reader.supply r = k
  induction k using Nat.strong_induction_on generalizing r b free with
  | _ k ih =>
    rw [ReadAll.loop]
    have hpos : 0 < (if free = 0 then grow b.length + 1 else free) := by split <;> omega
    obtain ⟨hI', he⟩ := hstep r _ hI hpos
    split
    · rename_i err herr
      simp only
      rw [he err herr]
    · rename_i herr
      have hlt := Reader.progress r _ hpos herr
      exact ih _ (hs ▸ hlt) _ (b ++ (Reader.Read r _).1.1) _ hI' rfl

/-- Reading an open body to its end with `ReadAll` returns all its unread bytes, and its
ending as the error, `nil` for `io.EOF`. -/
theorem ReadAll_body (grow : Nat → Nat) (b : Body) (hopen : b.closed = false) :
    (ReadAll grow b).1 = (b.unread, if b.final = GoError.EOF then none else some b.final) := by
  have h1 := ReadAll_loop_spec (ρ := Body) Body.unread (fun r => r.closed = false)
    (fun r n hr _ => by
      obtain ⟨hu, _, hc, _, _, he⟩ := Body_Read_spec r n hr
      refine ⟨hc, hu, ?_⟩
      intro e hE
      have hnil : (Reader.Read r n).2.pending = [] := (he e hE).2
      simp [Body.unread, hnil]) grow b [] 512 hopen
  have h2 := ReadAll_loop_err (ρ := Body) (fun r => r.closed = false ∧ r.final = b.final) b.final
    (fun r n hr _ => by
      obtain ⟨_, _, hc, hf, _, he⟩ := Body_Read_spec r n hr.1
      exact ⟨⟨hc, hf.trans hr.2⟩, fun e hE => (he e hE).1.trans hr.2⟩) grow b [] 512 ⟨hopen, rfl⟩
  unfold ReadAll
  rw [Prod.ext_iff]
  exact ⟨by simpa using h1.1, h2⟩

/-- Reading with `ReadAll` through a limited reader over an open body returns the unread
bytes of the body up to the limit and leaves the body open. -/
theorem ReadAll_limited (grow : Nat → Nat) (b : Body) (n : Int) (hopen : b.closed = false) :
    (ReadAll grow (LimitReader b n)).1.1 = b.unread.take n.toNat
      ∧ (ReadAll grow (LimitReader b n)).2.R.closed = false := by
  have h1 := ReadAll_loop_spec (ρ := LimitedReader) LimitedReader.content
    (fun l => l.R.closed = false)
    (fun l k hl _ => by
      obtain ⟨hu, hc, _, _, he⟩ := LimitedReader_Read_spec l k hl
      exact ⟨hc, hu, he⟩) grow (LimitReader b n) [] 512 hopen
  unfold ReadAll
  exact ⟨by simpa [LimitedReader.content, LimitReader] using h1.1, h1.2⟩

/-- Copying an open body to `ioutil.Discard` reads it to its end: nothing is left
unread, and the body is still open. -/
theorem Discard_ReadFrom_body (b : Body) (n : Int) (hopen : b.closed = false) :
    (Discard.ReadFrom b n).2.pending = [] ∧ (Discard.ReadFrom b n).2.closed = false := by
  generalize hs : Reader.supply b = k
  induction k using Nat.strong_induction_on generalizing b n with
  | _ k ih =>
    rw [Discard.ReadFrom]
    obtain ⟨_, _, hc, _, _, he⟩ := Body_Read_spec b 8192 hopen
    split
    · rename_i err herr
      exact ⟨(he err herr).2, hc⟩
    · rename_i herr
      have hlt := Reader.progress b 8192 (by omega) herr
      exact ih _ (hs ▸ hlt) _ _ hc rfl

/-- What `Open` does with a response of the wrong status whose body is open: no stream,
the status error with the first 8192 unread bytes of the body, and the body read to its
end and closed. -/
theorem Open_wrong_status (Do : Client → Request → DoResult) (grow : Nat → Nat) (u : URLReader)
    (ctx : Context) (resp : Response) (hDo : u.transportCall Do ctx = .ok resp)
    (hne : resp.StatusCode ≠ u.returnStatus) (hopen : resp.Body.closed = false) :
    (u.Open Do grow ctx).stream = none
      ∧ (u.Open Do grow ctx).err
          = some (statusError u.loc resp.StatusCode (resp.Body.unread.take 8192))
      ∧ ∃ b, (u.Open Do grow ctx).body = some b ∧ b.pending = [] ∧ b.closed = true := by
  unfold URLReader.transportCall at hDo
  obtain ⟨hdata, hc⟩ := ReadAll_limited grow resp.Body 8192 hopen
  obtain ⟨hp, _⟩ := Discard_ReadFrom_body _ 0 hc
  simp only [URLReader.Open, hDo, hne, ne_eq, not_false_eq_true, if_true, statusError, hdata]
  refine ⟨trivial, ?_, _, rfl, ?_, rfl⟩
  · simp
  · simpa [Body.Close, Copy_Discard] using hp

end Readers

/-! ## Decimal numerals: what `%d` prints -/

section Decimal

theorem digitChar_byte (k : Nat) (hk : k < 10) :
    ((Fin.ofNat (Nat.digitChar k).toNat : Byte)).val = 48 + k := by
  interval_cases k <;> rfl

theorem toDigitsCore_read (fuel : Nat) : ∀ (n : Nat) (ds : List Char), n < fuel →
    List.foldl (fun acc (c : Byte) => acc * 10 + (c.val - 48)) 0
        ((Nat.toDigitsCore 10 fuel n ds).map (fun c => Fin.ofNat c.toNat))
      = List.foldl (fun acc (c : Byte) => acc * 10 + (c.val - 48)) n
        (ds.map (fun c => Fin.ofNat c.toNat)) := by
  induction fuel with
  | zero => intro n ds h; omega
  | succ fuel ih =>
    intro n ds h
    have hd := digitChar_byte (n % 10) (Nat.mod_lt _ (by omega))
    simp only [Nat.toDigitsCore]
    split
    · simp only [List.map_cons, List.foldl_cons, hd]
      congr 1
      omega
    · rw [ih (n / 10) _ (by omega)]
      simp only [List.map_cons, List.foldl_cons, hd]
      congr 1
      omega

/-- Reading the digits that `fmtNat` prints gives the number back. -/
theorem readNat_fmtNat (n : Nat) : readNat (fmtNat n) = n := by
  unfold readNat fmtNat Nat.toDigits
  rw [toDigitsCore_read (n + 1) n [] (by omega)]
  rfl

theorem toDigitsCore_digits (fuel : Nat) : ∀ (n : Nat) (ds : List Char),
    (∀ c ∈ ds, 48 ≤ (Fin.ofNat c.toNat : Byte).val ∧ (Fin.ofNat c.toNat : Byte).val ≤ 57) →
    ∀ c ∈ Nat.toDigitsCore 10 fuel n ds,
      48 ≤ (Fin.ofNat c.toNat : Byte).val ∧ (Fin.ofNat c.toNat : Byte).val ≤ 57 := by
  induction fuel with
  | zero => intro n ds h; simpa [Nat.toDigitsCore] using h
  | succ fuel ih =>
    intro n ds h
    have hd := digitChar_byte (n % 10) (Nat.mod_lt _ (by omega))
    have hcons : ∀ c ∈ Nat.digitChar (n % 10) :: ds,
        48 ≤ (Fin.ofNat c.toNat : Byte).val ∧ (Fin.ofNat c.toNat : Byte).val ≤ 57 := by
      intro c hc
      rcases List.mem_cons.1 hc with hc | hc
      · subst hc; omega
      · exact h c hc
    simp only [Nat.toDigitsCore]
    split
    · exact hcons
    · exact ih _ _ hcons

/-- Every byte that `fmtNat` prints is an ASCII digit. -/
theorem fmtNat_digits (n : Nat) : ∀ c ∈ fmtNat n, 48 ≤ c.val ∧ c.val ≤ 57 := by
  intro c hc
  unfold fmtNat Nat.toDigits at hc
  obtain ⟨d, hd, rfl⟩ := List.mem_map.1 hc
  exact toDigitsCore_digits (n + 1) n [] (by simp) d hd

/-- Reading the numeral that `%d` prints for an `int` gives the `int` back: the text
determines the number. -/
theorem readInt_fmtInt (n : Int) : readInt (fmtInt n) = n := by
  have hminus : lit "-" = [ch '-'] := by decide
  unfold fmtInt
  by_cases hneg : n < 0
  · simp only [hneg, if_true, hminus, List.singleton_append, readInt, readNat_fmtNat]
    omega
  · simp only [hneg, if_false]
    have hread := readNat_fmtNat n.natAbs
    have hdig := fmtNat_digits n.natAbs
    cases hf : fmtNat n.natAbs with
    | nil =>
      rw [hf] at hread
      simp only [readNat, List.foldl_nil] at hread
      simp only [readInt]
      omega
    | cons c rest =>
      rw [hf] at hread hdig
      have hc := hdig c (List.mem_cons_self _ _)
      have hne : c ≠ ch '-' := by
        intro h
        rw [h] at hc
        revert hc
        decide
      simp only [readInt, hne, if_false, hread]
      omega

/-- Two status errors for the same location and body are equal only when they are made
from the same status. -/
theorem statusError_status (loc body : GoString) (R R' : Int)
    (h : statusError loc R' body = statusError loc R body) : R' = R := by
  unfold statusError at h
  simp only [GoError.New.injEq, List.append_assoc, List.append_cancel_left_eq] at h
  have hfmt : fmtInt R' = fmtInt R := by
    have hlen := congrArg List.length h
    simp only [List.length_append] at hlen
    exact List.append_inj_left h (by omega)
  rw [← readInt_fmtInt R', ← readInt_fmtInt R, hfmt]

end Decimal

/-! ## Header names -/

section HeaderNames

set_option maxRecDepth 100000 in
theorem validHeaderFieldByte_asciiLower :
    ∀ c : Byte, validHeaderFieldByte (asciiLower c) = validHeaderFieldByte c := by
  decide

set_option maxRecDepth 100000 in
theorem canonical_step_asciiLower : ∀ (upper : Bool) (c : Byte),
    (if upper && ch 'a' ≤ c && c ≤ ch 'z' then c - toLower
      else if !upper && ch 'A' ≤ c && c ≤ ch 'Z' then c + toLower else c)
    = (if upper && ch 'a' ≤ asciiLower c && asciiLower c ≤ ch 'z' then asciiLower c - toLower
      else if !upper && ch 'A' ≤ asciiLower c && asciiLower c ≤ ch 'Z' then asciiLower c + toLower
      else asciiLower c) := by
  decide

theorem canonicalMIMEHeaderKey_loop_asciiLower (s : GoString) : ∀ upper : Bool,
    canonicalMIMEHeaderKey.loop upper (s.map asciiLower) = canonicalMIMEHeaderKey.loop upper s := by
  induction s with
  | nil => intro upper; rfl
  | cons c rest ih =>
    intro upper
    simp only [List.map_cons, canonicalMIMEHeaderKey.loop]
    rw [← canonical_step_asciiLower upper c, ih]

theorem canonicalMIMEHeaderKey_check_valid (s : GoString)
    (hs : s.all validHeaderFieldByte = true) :
    canonicalMIMEHeaderKey.check false s = some false := by
  induction s with
  | nil => rfl
  | cons c rest ih =>
    simp only [List.all_cons, Bool.and_eq_true] at hs
    simp only [canonicalMIMEHeaderKey.check, hs.1, if_true]
    exact ih hs.2

theorem canonicalMIMEHeaderKey_valid (s : GoString) (hs : s.all validHeaderFieldByte = true) :
    canonicalMIMEHeaderKey s = canonicalMIMEHeaderKey.loop true s := by
  simp [canonicalMIMEHeaderKey, canonicalMIMEHeaderKey_check_valid s hs]

/-- The quick check of `CanonicalMIMEHeaderKey` returns a key of header field bytes
unchanged only when it is canonical already. -/
theorem CanonicalMIMEHeaderKey_loop_valid (s : GoString) (hs : s.all validHeaderFieldByte = true) :
    ∀ (rest pre : GoString) (upper : Bool), s = pre ++ rest →
      canonicalMIMEHeaderKey.loop true s = pre ++ canonicalMIMEHeaderKey.loop upper rest →
      CanonicalMIMEHeaderKey.loop s upper rest = canonicalMIMEHeaderKey.loop true s := by
  intro rest
  induction rest with
  | nil =>
    intro pre upper h1 h2
    simp only [CanonicalMIMEHeaderKey.loop]
    simp only [canonicalMIMEHeaderKey.loop, List.append_nil] at h1 h2
    rw [h2, h1]
  | cons c rest ih =>
    intro pre upper h1 h2
    have hc : validHeaderFieldByte c = true := by
      rw [h1] at hs
      simp only [List.all_append, List.all_cons, Bool.and_eq_true] at hs
      exact hs.2.1
    simp only [CanonicalMIMEHeaderKey.loop, hc, Bool.not_true, Bool.false_eq_true, if_false]
    by_cases ha : (upper && decide (ch 'a' ≤ c) && decide (c ≤ ch 'z')) = true
    · simp only [ha, if_true]
      exact canonicalMIMEHeaderKey_valid s hs
    · by_cases hb : (!upper && decide (ch 'A' ≤ c) && decide (c ≤ ch 'Z')) = true
      · simp only [ha, hb, if_true, if_false]
        exact canonicalMIMEHeaderKey_valid s hs
      · simp only [ha, hb, if_false]
        apply ih (pre ++ [c])
        · simp [h1]
        · rw [h2]
          simp only [canonicalMIMEHeaderKey.loop, ha, hb, if_false, List.append_assoc,
            List.singleton_append, Bool.false_eq_true]

theorem CanonicalMIMEHeaderKey_valid (s : GoString) (hs : s.all validHeaderFieldByte = true) :
    CanonicalMIMEHeaderKey s = canonicalMIMEHeaderKey.loop true s :=
  CanonicalMIMEHeaderKey_loop_valid s hs s [] true rfl rfl

theorem all_valid_map_asciiLower (s : GoString) :
    (s.map asciiLower).all validHeaderFieldByte = s.all validHeaderFieldByte := by
  induction s with
  | nil => rfl
  | cons c rest ih =>
    simp only [List.map_cons, List.all_cons, validHeaderFieldByte_asciiLower, ih]

theorem all_valid_eq_of_equalFold (n n' : GoString) (h : EqualFold n n') :
    n'.all validHeaderFieldByte = n.all validHeaderFieldByte := by
  rw [← all_valid_map_asciiLower n', ← h, all_valid_map_asciiLower n]

theorem all_valid_of_equalFold (n n' : GoString) (hn : n.all validHeaderFieldByte = true)
    (h : EqualFold n n') : n'.all validHeaderFieldByte = true := by
  rw [all_valid_eq_of_equalFold n n' h]
  exact hn

theorem canonicalMIMEHeaderKey_check_true (s : GoString) :
    canonicalMIMEHeaderKey.check true s ≠ some false := by
  induction s with
  | nil => simp [canonicalMIMEHeaderKey.check]
  | cons c rest ih =>
    simp only [canonicalMIMEHeaderKey.check]
    split
    · exact ih
    · split
      · exact ih
      · simp

theorem canonicalMIMEHeaderKey_check_invalid (s : GoString)
    (hs : s.all validHeaderFieldByte = false) :
    ∀ noCanon, canonicalMIMEHeaderKey.check noCanon s ≠ some false := by
  induction s with
  | nil => simp at hs
  | cons c rest ih =>
    intro noCanon
    simp only [canonicalMIMEHeaderKey.check]
    split
    · rename_i hc
      apply ih
      simpa [List.all_cons, hc] using hs
    · split
      · exact canonicalMIMEHeaderKey_check_true rest
      · simp

/-- A key with a byte that is not a header field byte is returned unchanged by
`canonicalMIMEHeaderKey`. -/
theorem canonicalMIMEHeaderKey_invalid (s : GoString)
    (hs : s.all validHeaderFieldByte = false) : canonicalMIMEHeaderKey s = s := by
  unfold canonicalMIMEHeaderKey
  split
  · rfl
  · rfl
  · rename_i h
    exact absurd h (canonicalMIMEHeaderKey_check_invalid s hs false)

theorem CanonicalMIMEHeaderKey_loop_cases (s : GoString) : ∀ (rest : GoString) (upper : Bool),
    CanonicalMIMEHeaderKey.loop s upper rest = s
      ∨ CanonicalMIMEHeaderKey.loop s upper rest = canonicalMIMEHeaderKey s := by
  intro rest
  induction rest with
  | nil => intro upper; exact Or.inl rfl
  | cons c rest ih =>
    intro upper
    simp only [CanonicalMIMEHeaderKey.loop]
    split
    · exact Or.inl rfl
    · split
      · exact Or.inr rfl
      · split
        · exact Or.inr rfl
        · exact ih _

/-- A name with a byte that is not a header field byte is its own canonical key. -/
theorem CanonicalMIMEHeaderKey_invalid (s : GoString)
    (hs : s.all validHeaderFieldByte = false) : CanonicalMIMEHeaderKey s = s := by
  rcases CanonicalMIMEHeaderKey_loop_cases s s true with h | h
  · exact h
  · exact h.trans (canonicalMIMEHeaderKey_invalid s hs)

/-- Two names of header field bytes that are equal up to letter case have the same
canonical key. -/
theorem CanonicalMIMEHeaderKey_equalFold (n n' : GoString)
    (hn : n.all validHeaderFieldByte = true) (h : EqualFold n n') :
    CanonicalMIMEHeaderKey n' = CanonicalMIMEHeaderKey n := by
  rw [CanonicalMIMEHeaderKey_valid n hn,
    CanonicalMIMEHeaderKey_valid n' (all_valid_of_equalFold n n' hn h),
    ← canonicalMIMEHeaderKey_loop_asciiLower n, ← canonicalMIMEHeaderKey_loop_asciiLower n', h]

end HeaderNames

/-! ## The claims -/

section Claims

/-- C1: for every reader and every response the transport gives, with status R, `Open`
returns the response body as the stream and no error when R is the expected status, and
no stream and the status error made from R when it is not. That error carries exactly R:
its text holds the decimal numeral of R, from which R is read back, so the error for any
other status is another error. The expected status is 200 after `NewURLReader` and S
after `ReturnStatus S`. -/
theorem C1_open_compares_status (Do : Client → Request → DoResult) (grow : Nat → Nat)
    (u : URLReader) (ctx : Context) (resp : Response)
    (hDo : u.transportCall Do ctx = .ok resp) :
    (resp.StatusCode = u.returnStatus →
        (u.Open Do grow ctx).stream = some resp.Body ∧ (u.Open Do grow ctx).err = none)
      ∧ (resp.StatusCode ≠ u.returnStatus →
        (u.Open Do grow ctx).stream = none
          ∧ ∃ excerpt,
              (u.Open Do grow ctx).err
                = some (.New (u.loc ++ lit " returned status " ++ fmtInt resp.StatusCode
                    ++ lit "; error = " ++ excerpt))
              ∧ (resp.Body.closed = false → excerpt = resp.Body.unread.take 8192)
              ∧ ∀ R' : Int,
                  (u.Open Do grow ctx).err
                    = some (.New (u.loc ++ lit " returned status " ++ fmtInt R'
                        ++ lit "; error = " ++ excerpt)) →
                  R' = resp.StatusCode)
      ∧ readInt (fmtInt resp.StatusCode) = resp.StatusCode
      ∧ (∀ c ∈ fmtInt resp.StatusCode, c = ch '-' ∨ (48 ≤ c.val ∧ c.val ≤ 57))
      ∧ (∀ S, (u.ReturnStatus S).returnStatus = S)
      ∧ (∀ loc r, NewURLReader loc = .ok r → r.returnStatus = 200) := by
  have hcall := hDo
  unfold URLReader.transportCall at hDo
  refine ⟨?_, ?_, readInt_fmtInt _, ?_, fun _ => rfl, ?_⟩
  · intro h
    simp [URLReader.Open, hDo, h]
  · intro h
    have herr : (u.Open Do grow ctx).err
        = some (statusError u.loc resp.StatusCode (ReadAll grow (LimitReader resp.Body 8192)).1.1) := by
      simp only [URLReader.Open, hDo, h, ne_eq, not_false_eq_true, if_true, statusError]
    refine ⟨?_, _, herr, ?_, ?_⟩
    · simp only [URLReader.Open, hDo, h, ne_eq, not_false_eq_true, if_true]
    · intro hopen
      exact (ReadAll_limited grow resp.Body 8192 hopen).1
    · intro R' h'
      rw [herr] at h'
      exact statusError_status _ _ _ _ (Option.some.inj h').symm
  · intro c hc
    unfold fmtInt at hc
    have hminus : lit "-" = [ch '-'] := by decide
    split at hc
    · rw [hminus] at hc
      rcases List.mem_append.1 hc with h1 | h1
      · exact Or.inl (List.mem_singleton.1 h1)
      · exact Or.inr (fmtNat_digits _ c h1)
    · exact Or.inr (fmtNat_digits _ c hc)
  · intro loc r h
    unfold NewURLReader at h
    split at h
    · simp at h
    · simp only [Except.ok.injEq] at h
      rw [← h]
      rfl

set_option maxRecDepth 100000 in
/-- C1, at an instance: the example reader against a server answering 404 with the body
`not found`, and against one answering 200. -/
theorem C1_open_compares_status_witness :
    exampleReader.transportCall (exampleServer 404 (exampleBody [lit "not found"])) .Background
        = .ok { StatusCode := 404, Body := exampleBody [lit "not found"] }
      ∧ (exampleReader.Open (exampleServer 404 (exampleBody [lit "not found"])) id
          .Background).stream = none
      ∧ (exampleReader.Open (exampleServer 404 (exampleBody [lit "not found"])) id
          .Background).err
        = some (.New (lit "http://example.test/data returned status 404; error = not found"))
      ∧ (exampleReader.Open (exampleServer 200 (exampleBody [lit "hello"])) id
          .Background).err = none := by
  have h404 := (C1_open_compares_status (exampleServer 404 (exampleBody [lit "not found"])) id
    exampleReader .Background _ rfl).2.1 (by decide)
  have h200 := (C1_open_compares_status (exampleServer 200 (exampleBody [lit "hello"])) id
    exampleReader .Background _ rfl).1 rfl
  obtain ⟨hstream, excerpt, herr, hex, _⟩ := h404
  refine ⟨rfl, hstream, ?_, h200.2⟩
  rw [herr, hex rfl]
  rfl

/-- C2: for every response with a status other than the expected one and an open body
with unread bytes b, whatever their number and the segments they arrive in, the error
that `Open` returns ends with the first min(len(b), 8192) bytes of b, so the excerpt is
never longer than 8192 bytes. -/
theorem C2_excerpt_is_first_8192_bytes (Do : Client → Request → DoResult) (grow : Nat → Nat)
    (u : URLReader) (ctx : Context) (resp : Response)
    (hDo : u.transportCall Do ctx = .ok resp) (hne : resp.StatusCode ≠ u.returnStatus)
    (hopen : resp.Body.closed = false) :
    (u.Open Do grow ctx).err
        = some (statusError u.loc resp.StatusCode (resp.Body.unread.take 8192))
      ∧ (resp.Body.unread.take 8192).length = min resp.Body.unread.length 8192
      ∧ (resp.Body.unread.take 8192).length ≤ 8192 := by
  refine ⟨(Open_wrong_status Do grow u ctx resp hDo hne hopen).2.1, ?_, ?_⟩
  · rw [List.length_take, Nat.min_comm]
  · rw [List.length_take]
    exact Nat.min_le_left _ _

/-- C2, at an instance: a body of 9000 bytes in two segments, answered with status 500. -/
theorem C2_excerpt_is_first_8192_bytes_witness :
    (500 : Int) ≠ exampleReader.returnStatus
      ∧ (exampleReader.Open
          (exampleServer 500 (exampleBody [List.replicate 8000 (ch 'x'), List.replicate 1000 (ch 'y')]))
          id .Background).err
        = some (statusError exampleReader.loc 500
            ((exampleBody [List.replicate 8000 (ch 'x'), List.replicate 1000 (ch 'y')]).unread.take
              8192)) :=
  ⟨by decide, (C2_excerpt_is_first_8192_bytes
    (exampleServer 500 (exampleBody [List.replicate 8000 (ch 'x'), List.replicate 1000 (ch 'y')]))
    id exampleReader .Background _ rfl (by decide) rfl).1⟩

/-- C3: for every response with a status other than the expected one and an open body,
when `Open` returns its error the body has been read to its end, so that no byte of it is
unread, and it has been closed, and `Open` returns no stream. -/
theorem C3_body_drained_and_closed (Do : Client → Request → DoResult) (grow : Nat → Nat)
    (u : URLReader) (ctx : Context) (resp : Response)
    (hDo : u.transportCall Do ctx = .ok resp) (hne : resp.StatusCode ≠ u.returnStatus)
    (hopen : resp.Body.closed = false) :
    (u.Open Do grow ctx).stream = none
      ∧ (u.Open Do grow ctx).err ≠ none
      ∧ ∃ b, (u.Open Do grow ctx).body = some b ∧ b.unread = [] ∧ b.pending = []
          ∧ b.closed = true := by
  obtain ⟨h1, h2, b, h3, h4, h5⟩ := Open_wrong_status Do grow u ctx resp hDo hne hopen
  refine ⟨h1, ?_, b, h3, ?_, h4, h5⟩
  · rw [h2]; simp
  · simp [Body.unread, h4]

/-- C3, at an instance: a body of 9000 bytes, of which the excerpt takes 8192. -/
theorem C3_body_drained_and_closed_witness :
    (500 : Int) ≠ exampleReader.returnStatus
      ∧ ∃ b, (exampleReader.Open
          (exampleServer 500 (exampleBody [List.replicate 9000 (ch 'x')])) id .Background).body
            = some b ∧ b.unread = [] ∧ b.pending = [] ∧ b.closed = true :=
  ⟨by decide, (C3_body_drained_and_closed
    (exampleServer 500 (exampleBody [List.replicate 9000 (ch 'x')])) id exampleReader
    .Background _ rfl (by decide) rfl).2.2⟩

/-- C4: for every location that `NewURLReader` accepts, the reader it returns, opened
without further configuration against a response with status 200, returns the response
body itself, in the state the transport gave it (no `Read` made, not closed), and no
error; reading that stream to its end yields exactly the bytes of the body. -/
theorem C4_default_reader_returns_body (loc : GoString) (u : URLReader)
    (hnew : NewURLReader loc = .ok u) (Do : Client → Request → DoResult) (grow : Nat → Nat)
    (ctx : Context) (resp : Response) (hDo : u.transportCall Do ctx = .ok resp)
    (h200 : resp.StatusCode = 200) (hopen : resp.Body.closed = false)
    (heof : resp.Body.final = .EOF) :
    u.Open Do grow ctx = { stream := some resp.Body, err := none, body := some resp.Body }
      ∧ ∀ s, (u.Open Do grow ctx).stream = some s →
          s.reads = resp.Body.reads ∧ s.closed = false
            ∧ (ReadAll grow s).1 = (resp.Body.unread, none) := by
  have hs : u.returnStatus = 200 := by
    unfold NewURLReader at hnew
    split at hnew
    · simp at hnew
    · simp only [Except.ok.injEq] at hnew
      rw [← hnew]
      rfl
  unfold URLReader.transportCall at hDo
  have hopenResult : u.Open Do grow ctx
      = { stream := some resp.Body, err := none, body := some resp.Body } := by
    simp [URLReader.Open, hDo, h200, hs]
  refine ⟨hopenResult, ?_⟩
  intro s hstream
  rw [hopenResult] at hstream
  simp only [Option.some.injEq] at hstream
  subst hstream
  refine ⟨rfl, hopen, ?_⟩
  rw [ReadAll_body grow resp.Body hopen, heof]
  simp

/-- C4, at an instance: the example location and a server answering 200 with `hello`. -/
theorem C4_default_reader_returns_body_witness :
    NewURLReader (lit "http://example.test/data") = .ok exampleReader
      ∧ exampleReader.Open (exampleServer 200 (exampleBody [lit "hello"])) id .Background
        = { stream := some (exampleBody [lit "hello"]), err := none,
            body := some (exampleBody [lit "hello"]) }
      ∧ (ReadAll id (exampleBody [lit "hello"])).1 = (lit "hello", none) :=
  have h := C4_default_reader_returns_body (lit "http://example.test/data") exampleReader rfl
    (exampleServer 200 (exampleBody [lit "hello"])) id .Background
    { StatusCode := 200, Body := exampleBody [lit "hello"] } rfl rfl rfl rfl
  ⟨rfl, h.1, (h.2 (exampleBody [lit "hello"]) (by rw [h.1])).2.2⟩

/-- C5: for every user, password and token, after `BasicAuth(user, password)` and then
`OAuth2HeaderToken(token)` the request has the single Authorization value
`Bearer <token>`, and the reader is the one that `OAuth2HeaderToken(token)` alone gives:
nothing of the basic-auth credentials is left. -/
theorem C5_bearer_replaces_basic (u : URLReader) (user pw token : GoString) :
    ((u.BasicAuth user pw).OAuth2HeaderToken token).req.Header.Values (lit "Authorization")
        = [lit "Bearer " ++ token]
      ∧ ((u.BasicAuth user pw).OAuth2HeaderToken token).req.Header (lit "Authorization")
        = some [lit "Bearer " ++ token]
      ∧ (u.BasicAuth user pw).req.Header (lit "Authorization")
        = some [lit "Basic " ++ basicAuth user pw]
      ∧ (u.BasicAuth user pw).OAuth2HeaderToken token = u.OAuth2HeaderToken token := by
  have hkey : CanonicalMIMEHeaderKey (lit "Authorization") = lit "Authorization" := by decide
  refine ⟨?_, ?_, ?_, ?_⟩
  · simp [URLReader.BasicAuth, URLReader.OAuth2HeaderToken, HTTPHeader.Values, HTTPHeader.Set]
  · simp [URLReader.BasicAuth, URLReader.OAuth2HeaderToken, HTTPHeader.Set, hkey]
  · simp [URLReader.BasicAuth, Request.SetBasicAuth, HTTPHeader.Set, hkey]
  · simp only [URLReader.BasicAuth, URLReader.OAuth2HeaderToken, Request.SetBasicAuth,
      HTTPHeader.Set]
    congr 2
    funext k
    unfold HTTPHeader.Set
    by_cases hk : k = CanonicalMIMEHeaderKey (lit "Authorization") <;> simp [hk]

/-- C6, as the code has it: the empty location is accepted. `url.Parse` reads it as an
empty relative reference, so `NewURLReader` returns a reader and no error. -/
theorem C6_empty_location_accepted :
    ∃ u, NewURLReader (lit "") = .ok u ∧ u.loc = lit "" ∧ u.returnStatus = 200
      ∧ u.req.URL = {} :=
  ⟨_, rfl, rfl, rfl, rfl⟩

/-- C6, amended: `NewURLReader` fails exactly on the locations that `url.Parse` rejects,
with the error of `url.Parse` and no reader; every location with an empty scheme (one that
begins with a colon) is among them; for a location that `url.Parse` accepts it returns a
reader with that location and the expected status 200. -/
theorem C6_fails_when_parse_fails (loc : GoString) :
    (∀ e, Parse loc = .error e → NewURLReader loc = .error e)
      ∧ (∀ url, Parse loc = .ok url →
          ∃ u, NewURLReader loc = .ok u ∧ u.loc = loc ∧ u.returnStatus = 200 ∧ u.trans = none)
      ∧ (∀ rest, loc = ch ':' :: rest → ∃ e, NewURLReader loc = .error e) := by
  have herr : ∀ l e, Parse l = .error e → NewURLReader l = .error e := by
    intro l e h
    have hget : validMethod (lit "GET") = true := by decide
    have hne : lit "GET" ≠ [] := by decide
    simp [NewURLReader, NewRequest, MethodGet, h, hget, hne]
  refine ⟨herr loc, ?_, ?_⟩
  · intro url h
    have hget : validMethod (lit "GET") = true := by decide
    have hne : lit "GET" ≠ [] := by decide
    simp [NewURLReader, NewRequest, MethodGet, h, hget, hne, StatusOK]
  · intro rest hloc
    subst hloc
    have hcut : ∃ t, (Cut (ch ':' :: rest) (lit "#")).1 = ch ':' :: t := by
      unfold Cut
      rw [Index]
      have hpre : (lit "#").isPrefixOf (ch ':' :: rest) = false := by
        have h1 : lit "#" = [ch '#'] := by decide
        have h2 : (ch '#' == ch ':') = false := by decide
        rw [h1]
        simp only [List.isPrefixOf, h2, Bool.false_and]
      simp only [hpre, Bool.false_eq_true, if_false]
      cases Index rest (lit "#") with
      | none => exact ⟨rest, rfl⟩
      | some i => exact ⟨rest.take i, rfl⟩
    obtain ⟨t, ht⟩ := hcut
    have hparse : ∃ e, parse (ch ':' :: t) false = .error e := by
      unfold parse
      by_cases hctl : stringContainsCTLByte (ch ':' :: t) = true
      · exact ⟨.New (lit "net/url: invalid control character in URL"),
          by simp only [hctl, if_true]⟩
      · refine ⟨.New (lit "missing protocol scheme"), ?_⟩
        have hstar : (ch ':' :: t) ≠ lit "*" := by
          have h1 : lit "*" = [ch '*'] := by decide
          rw [h1]
          intro h
          injection h with h' _
          revert h'
          decide
        simp only [hctl, Bool.false_eq_true, if_false, hstar]
        rfl
    obtain ⟨e, he⟩ := hparse
    refine ⟨.URLError (lit "parse") (ch ':' :: t) e, herr _ _ ?_⟩
    unfold Parse
    rw [show Cut (ch ':' :: rest) (lit "#")
      = ((Cut (ch ':' :: rest) (lit "#")).1, (Cut (ch ':' :: rest) (lit "#")).2.1,
          (Cut (ch ':' :: rest) (lit "#")).2.2) from rfl]
    simp only [ht, he]

/-- C6, amended, at an instance: the location `://x`, whose scheme is empty. -/
theorem C6_fails_when_parse_fails_witness :
    Parse (lit "://x")
        = .error (.URLError (lit "parse") (lit "://x") (.New (lit "missing protocol scheme")))
      ∧ NewURLReader (lit "://x")
        = .error (.URLError (lit "parse") (lit "://x") (.New (lit "missing protocol scheme"))) :=
  ⟨rfl, (C6_fails_when_parse_fails (lit "://x")).1 _ rfl⟩

/-- C7: for every reader and context, when the transport call fails with error e, `Open`
returns no stream and the error e itself; a response that came with the error is left as
it was (its body neither read nor closed), and the expected status plays no part. -/
theorem C7_transport_error_returned (Do : Client → Request → DoResult) (grow : Nat → Nat)
    (u : URLReader) (ctx : Context) (resp : Option Response) (e : GoError)
    (hDo : u.transportCall Do ctx = .failed resp e) :
    u.Open Do grow ctx = { stream := none, err := some e, body := resp.map (·.Body) }
      ∧ ∀ S, (u.ReturnStatus S).Open Do grow ctx
          = { stream := none, err := some e, body := resp.map (·.Body) } := by
  unfold URLReader.transportCall at hDo
  refine ⟨?_, ?_⟩
  · simp [URLReader.Open, hDo]
  · intro S
    simp [URLReader.Open, URLReader.ReturnStatus, hDo]

/-- C7, at an instance: a transport that fails every request. -/
theorem C7_transport_error_returned_witness :
    exampleReader.Open (exampleOutage (.New (lit "dial tcp: connection refused"))) id .Background
      = { stream := none, err := some (.New (lit "dial tcp: connection refused")), body := none } :=
  (C7_transport_error_returned (exampleOutage (.New (lit "dial tcp: connection refused"))) id
    exampleReader .Background none _ rfl).1

/-- C8: for every response with a status other than the expected one whose body delivers
k bytes, at most 8192, in any segments and then fails with a read error e, reported with
the last bytes or after them, `Open` returns no stream and the status error whose excerpt
is those k bytes (none when k = 0); the error does not depend on e, and the body is
closed. -/
theorem C8_read_error_swallowed (Do : Client → Request → DoResult) (grow : Nat → Nat)
    (u : URLReader) (ctx : Context) (status : Int) (segments : List GoString) (e : GoError)
    (eager : Bool) (reads : Nat)
    (hDo : u.transportCall Do ctx = .ok
      { StatusCode := status,
        Body := { pending := segments, final := e, eager := eager, closed := false,
                  reads := reads } })
    (hne : status ≠ u.returnStatus) (hk : segments.flatten.length ≤ 8192) :
    (u.Open Do grow ctx).stream = none
      ∧ (u.Open Do grow ctx).err = some (statusError u.loc status segments.flatten)
      ∧ ∃ b, (u.Open Do grow ctx).body = some b ∧ b.closed = true ∧ b.pending = [] := by
  obtain ⟨h1, h2, b, h3, h4, h5⟩ := Open_wrong_status Do grow u ctx _ hDo hne rfl
  refine ⟨h1, ?_, b, h3, h5, h4⟩
  rw [h2]
  simp only [Body.unread]
  rw [List.take_of_length_le hk]

/-- C8, at an instance: a body that fails after the nine bytes `not found`, and one that
fails before any byte. -/
theorem C8_read_error_swallowed_witness :
    (exampleReader.Open
        (exampleServer 404
          { pending := [lit "not ", lit "found"], final := .New (lit "unexpected EOF"),
            eager := true, closed := false, reads := 0 }) id .Background).err
        = some (statusError exampleReader.loc 404 (lit "not " ++ lit "found" ++ []))
      ∧ (exampleReader.Open
        (exampleServer 404
          { pending := [], final := .New (lit "connection reset by peer"),
            eager := false, closed := false, reads := 0 }) id .Background).err
        = some (statusError exampleReader.loc 404 []) :=
  ⟨(C8_read_error_swallowed
      (exampleServer 404
        { pending := [lit "not ", lit "found"], final := .New (lit "unexpected EOF"),
          eager := true, closed := false, reads := 0 })
      id exampleReader .Background 404 [lit "not ", lit "found"]
      (.New (lit "unexpected EOF")) true 0 rfl (by decide) (by decide)).2.1,
    (C8_read_error_swallowed
      (exampleServer 404
        { pending := [], final := .New (lit "connection reset by peer"),
          eager := false, closed := false, reads := 0 })
      id exampleReader .Background 404 []
      (.New (lit "connection reset by peer")) false 0 rfl (by decide) (by decide)).2.1⟩

/-- C9: for every location loc that `NewURLReader` accepts, every expected status S set
on the reader it returns, every response status R other than S and every open body b of
at most 8192 bytes, the error that `Open` returns is the message
`<loc> returned status <R>; error = <b>`, with loc as given at construction, the decimal
numeral of R, from which R is read back, and b in full; the message for another location
of the same length, another status or another body is another message. -/
theorem C9_error_carries_loc_status_body (loc : GoString) (u : URLReader)
    (hnew : NewURLReader loc = .ok u) (Do : Client → Request → DoResult) (grow : Nat → Nat)
    (ctx : Context) (S : Int) (resp : Response)
    (hDo : (u.ReturnStatus S).transportCall Do ctx = .ok resp) (hne : resp.StatusCode ≠ S)
    (hopen : resp.Body.closed = false) (hlen : resp.Body.unread.length ≤ 8192) :
    ((u.ReturnStatus S).Open Do grow ctx).stream = none
      ∧ ((u.ReturnStatus S).Open Do grow ctx).err
        = some (.New (loc ++ lit " returned status " ++ fmtInt resp.StatusCode
            ++ lit "; error = " ++ resp.Body.unread))
      ∧ readInt (fmtInt resp.StatusCode) = resp.StatusCode
      ∧ (∀ R' : Int,
          ((u.ReturnStatus S).Open Do grow ctx).err
            = some (.New (loc ++ lit " returned status " ++ fmtInt R'
                ++ lit "; error = " ++ resp.Body.unread)) →
          R' = resp.StatusCode)
      ∧ (∀ b' : GoString,
          ((u.ReturnStatus S).Open Do grow ctx).err
            = some (.New (loc ++ lit " returned status " ++ fmtInt resp.StatusCode
                ++ lit "; error = " ++ b')) →
          b' = resp.Body.unread)
      ∧ (∀ (loc' b' : GoString) (R' : Int), loc'.length = loc.length →
          ((u.ReturnStatus S).Open Do grow ctx).err
            = some (.New (loc' ++ lit " returned status " ++ fmtInt R'
                ++ lit "; error = " ++ b')) →
          loc' = loc) := by
  have hloc : (u.ReturnStatus S).loc = loc := by
    unfold NewURLReader at hnew
    split at hnew
    · simp at hnew
    · simp only [Except.ok.injEq] at hnew
      rw [← hnew]
      rfl
  obtain ⟨h1, h2, _⟩ := Open_wrong_status Do grow (u.ReturnStatus S) ctx resp hDo hne hopen
  have herr : ((u.ReturnStatus S).Open Do grow ctx).err
      = some (statusError loc resp.StatusCode resp.Body.unread) := by
    rw [h2, hloc, List.take_of_length_le hlen]
  refine ⟨h1, herr, readInt_fmtInt _, ?_, ?_, ?_⟩
  · intro R' h'
    rw [herr] at h'
    exact statusError_status _ _ _ _ (Option.some.inj h').symm
  · intro b' h'
    rw [herr] at h'
    have h'' := Option.some.inj h'
    simp only [statusError, GoError.New.injEq, List.append_assoc,
      List.append_cancel_left_eq] at h''
    exact h''.symm
  · intro loc' b' R' hl h'
    rw [herr] at h'
    have h'' := Option.some.inj h'
    simp only [statusError, GoError.New.injEq, List.append_assoc] at h''
    exact (List.append_inj_left h'' hl.symm).symm

set_option maxRecDepth 100000 in
/-- C9, at an instance: the example location, expected status 200, and a server
answering 404 with the body `not found`; and the same server answering 500. -/
theorem C9_error_carries_loc_status_body_witness :
    NewURLReader (lit "http://example.test/data") = .ok exampleReader
      ∧ ((exampleReader.ReturnStatus 200).Open (exampleServer 404 (exampleBody [lit "not found"]))
          id .Background).err
        = some (.New (lit "http://example.test/data returned status 404; error = not found"))
      ∧ ((exampleReader.ReturnStatus 200).Open (exampleServer 500 (exampleBody [lit "not found"]))
          id .Background).err
        = some (.New (lit "http://example.test/data returned status 500; error = not found")) :=
  ⟨rfl, ((C9_error_carries_loc_status_body (lit "http://example.test/data") exampleReader rfl
    (exampleServer 404 (exampleBody [lit "not found"])) id .Background 200
    { StatusCode := 404, Body := exampleBody [lit "not found"] } rfl (by decide) rfl
    (by decide)).2.1).trans rfl,
   ((C9_error_carries_loc_status_body (lit "http://example.test/data") exampleReader rfl
    (exampleServer 500 (exampleBody [lit "not found"])) id .Background 200
    { StatusCode := 500, Body := exampleBody [lit "not found"] } rfl (by decide) rfl
    (by decide)).2.1).trans rfl⟩

/-- C10, as the code has it: a header name with a byte that is not a header field byte,
here a space, is not made canonical, so `x y` and `X Y` are two keys of the map and the
first keeps its value. -/
theorem C10_names_with_space_stay_apart :
    EqualFold (lit "x y") (lit "X Y")
      ∧ ((exampleReader.Header (lit "x y") (lit "1")).Header (lit "X Y") (lit "2")).req.Header.Values
          (lit "x y") = [lit "1"]
      ∧ ((exampleReader.Header (lit "x y") (lit "1")).Header (lit "X Y") (lit "2")).req.Header.Values
          (lit "X Y") = [lit "2"] := by
  decide

/-- C10, amended: for every header name n made of header field bytes (letters, digits
and the other token characters of RFC 7230), every n' equal to n up to letter case and
all values v1 and v2, after `Header(n, v1)` and `Header(n', v2)` the header has the single
value v2 under either spelling, every other key of the header map, the location, the
expected status, the rest of the request and the transport are as before, and the
reader is the one that `Header(n, v2)` alone gives. A name with any other byte, such as a
space or a byte that is not ASCII, is its own key: n' is stored under its literal
spelling with v2, and when n' differs from n the header n keeps v1; all other keys are as
before. The method returns its receiver, which the state passed through the calls stands
for. -/
theorem C10_header_last_write_wins (u : URLReader) (n n' v1 v2 : GoString)
    (hfold : EqualFold n n') :
    (n.all validHeaderFieldByte = true →
      ((u.Header n v1).Header n' v2).req.Header.Values n = [v2]
        ∧ ((u.Header n v1).Header n' v2).req.Header.Values n' = [v2]
        ∧ (∀ k, k ≠ CanonicalMIMEHeaderKey n →
            ((u.Header n v1).Header n' v2).req.Header k = u.req.Header k)
        ∧ ((u.Header n v1).Header n' v2).loc = u.loc
        ∧ ((u.Header n v1).Header n' v2).returnStatus = u.returnStatus
        ∧ ((u.Header n v1).Header n' v2).trans = u.trans
        ∧ ((u.Header n v1).Header n' v2).req.URL = u.req.URL
        ∧ (u.Header n v1).Header n' v2 = u.Header n v2)
      ∧ (n.all validHeaderFieldByte = false →
        CanonicalMIMEHeaderKey n = n ∧ CanonicalMIMEHeaderKey n' = n'
          ∧ ((u.Header n v1).Header n' v2).req.Header n' = some [v2]
          ∧ ((u.Header n v1).Header n' v2).req.Header.Values n' = [v2]
          ∧ (n' ≠ n → ((u.Header n v1).Header n' v2).req.Header n = some [v1]
              ∧ ((u.Header n v1).Header n' v2).req.Header.Values n = [v1])
          ∧ (∀ k, k ≠ n → k ≠ n' →
              ((u.Header n v1).Header n' v2).req.Header k = u.req.Header k)
          ∧ ((u.Header n v1).Header n' v2).loc = u.loc
          ∧ ((u.Header n v1).Header n' v2).returnStatus = u.returnStatus) := by
  refine ⟨?_, ?_⟩
  · intro hn
    have hkey := CanonicalMIMEHeaderKey_equalFold n n' hn hfold
    refine ⟨?_, ?_, ?_, rfl, rfl, rfl, rfl, ?_⟩
    · simp [URLReader.Header, HTTPHeader.Values, HTTPHeader.Set, hkey]
    · simp [URLReader.Header, HTTPHeader.Values, HTTPHeader.Set, hkey]
    · intro k hk
      simp [URLReader.Header, HTTPHeader.Set, hkey, hk]
    · simp only [URLReader.Header]
      congr 2
      funext k
      unfold HTTPHeader.Set
      by_cases hk : k = CanonicalMIMEHeaderKey n <;> simp [hk, hkey]
  · intro hbad
    have hbad' : n'.all validHeaderFieldByte = false := by
      rw [all_valid_eq_of_equalFold n n' hfold]
      exact hbad
    have hn := CanonicalMIMEHeaderKey_invalid n hbad
    have hn' := CanonicalMIMEHeaderKey_invalid n' hbad'
    refine ⟨hn, hn', ?_, ?_, ?_, ?_, rfl, rfl⟩
    · simp [URLReader.Header, HTTPHeader.Set, hn']
    · simp [URLReader.Header, HTTPHeader.Values, HTTPHeader.Set, hn']
    · intro hne
      have hne' : ¬ n = n' := fun h => hne h.symm
      refine ⟨?_, ?_⟩
      · simp [URLReader.Header, HTTPHeader.Set, hn, hn', hne']
      · simp [URLReader.Header, HTTPHeader.Values, HTTPHeader.Set, hn, hn', hne']
    · intro k hk hk'
      simp [URLReader.Header, HTTPHeader.Set, hn, hn', hk, hk']

/-- C10, amended, at an instance: `content-type` and then `Content-TYPE`, one header;
and a name with a letter that is not ASCII, written in two cases, two headers. -/
theorem C10_header_last_write_wins_witness :
    EqualFold (lit "content-type") (lit "Content-TYPE")
      ∧ ((exampleReader.Header (lit "content-type") (lit "text/plain")).Header
          (lit "Content-TYPE") (lit "text/html")).req.Header.Values (lit "content-type")
        = [lit "text/html"]
      ∧ EqualFold (lit "café") (lit "CAFé")
      ∧ ((exampleReader.Header (lit "café") (lit "1")).Header (lit "CAFé") (lit "2")).req.Header.Values
          (lit "café") = [lit "1"]
      ∧ ((exampleReader.Header (lit "café") (lit "1")).Header (lit "CAFé") (lit "2")).req.Header.Values
          (lit "CAFé") = [lit "2"] :=
  ⟨by decide, ((C10_header_last_write_wins exampleReader (lit "content-type")
      (lit "Content-TYPE") (lit "text/plain") (lit "text/html") (by decide)).1 (by decide)).1,
    by decide,
    (((C10_header_last_write_wins exampleReader (lit "café") (lit "CAFé") (lit "1") (lit "2")
      (by decide)).2 (by decide)).2.2.2.2.1 (by decide)).2,
    ((C10_header_last_write_wins exampleReader (lit "café") (lit "CAFé") (lit "1") (lit "2")
      (by decide)).2 (by decide)).2.2.2.1⟩

end Claims

/-! ## Further properties -/

section Further

/-- After `Proxy(fixedURL)` the client that `Open` uses has the transport with the proxy
function of `fixedURL`; a reader without a transport uses the zero client, whose `nil`
transport stands for the default one. -/
theorem Proxy_sets_transport (Do : Client → Request → DoResult) (u : URLReader)
    (fixedURL : Option URL) (ctx : Context) :
    (u.Proxy fixedURL).transportCall Do ctx
        = Do { Transport := some { Proxy := some fixedURL } } (u.req.WithContext ctx)
      ∧ (u.trans = none → u.transportCall Do ctx = Do {} (u.req.WithContext ctx))
      ∧ (u.Proxy fixedURL).loc = u.loc ∧ (u.Proxy fixedURL).returnStatus = u.returnStatus
      ∧ (u.Proxy fixedURL).req.Header = u.req.Header := by
  refine ⟨rfl, ?_, rfl, rfl, rfl⟩
  intro h
  simp [URLReader.transportCall, h]

/-- After `BasicAuth(user, pw)` the request has the single Authorization value `Basic `
followed by the standard base64 encoding of `user:pw`; for the user `Aladdin` and the
password `open sesame` that is `QWxhZGRpbjpvcGVuIHNlc2FtZQ==`. -/
theorem BasicAuth_sets_authorization (u : URLReader) (user pw : GoString) :
    (u.BasicAuth user pw).req.Header.Values (lit "Authorization")
        = [lit "Basic " ++ EncodeToString (user ++ lit ":" ++ pw)]
      ∧ (exampleReader.BasicAuth (lit "Aladdin") (lit "open sesame")).req.Header.Values
          (lit "Authorization") = [lit "Basic QWxhZGRpbjpvcGVuIHNlc2FtZQ=="] := by
  refine ⟨?_, by decide⟩
  simp [URLReader.BasicAuth, Request.SetBasicAuth, HTTPHeader.Values, HTTPHeader.Set, basicAuth]

/-- The location is set at construction and no configuration method changes it, nor does
any of them change the URL of the request. -/
theorem configuration_keeps_location (u : URLReader) (a b : GoString) (S : Int)
    (fixedURL : Option URL) :
    (u.BasicAuth a b).loc = u.loc ∧ (u.OAuth2HeaderToken a).loc = u.loc
      ∧ (u.Header a b).loc = u.loc ∧ (u.Proxy fixedURL).loc = u.loc
      ∧ (u.ReturnStatus S).loc = u.loc
      ∧ (u.BasicAuth a b).req.URL = u.req.URL ∧ (u.OAuth2HeaderToken a).req.URL = u.req.URL
      ∧ (u.Header a b).req.URL = u.req.URL ∧ (u.Proxy fixedURL).req.URL = u.req.URL
      ∧ (u.ReturnStatus S).req.URL = u.req.URL :=
  ⟨rfl, rfl, rfl, rfl, rfl, rfl, rfl, rfl, rfl, rfl⟩

/-- The request that `Open` hands to the transport is the configured request with the
context of the call: same method, URL, headers and host. -/
theorem Open_sends_configured_request (u : URLReader) (ctx : Context) :
    (u.req.WithContext ctx).ctx = ctx
      ∧ (u.req.WithContext ctx).Method = u.req.Method
      ∧ (u.req.WithContext ctx).URL = u.req.URL
      ∧ (u.req.WithContext ctx).Header = u.req.Header
      ∧ (u.req.WithContext ctx).Host = u.req.Host
      ∧ ∀ loc r, NewURLReader loc = .ok r → r.req.Method = lit "GET" := by
  refine ⟨rfl, rfl, rfl, rfl, rfl, ?_⟩
  intro loc r h
  unfold NewURLReader NewRequest at h
  have hne : ¬ (MethodGet = []) := by decide
  have hget : validMethod MethodGet = true := by decide
  simp only [hne, if_false, hget, Bool.not_true, Bool.false_eq_true] at h
  split at h
  · simp at h
  · rename_i request hreq
    split at hreq
    · simp at hreq
    · simp only [Except.ok.injEq] at hreq h
      rw [← h, ← hreq]
      rfl

end Further

end urlreader
